import Mathlib

/-!
Verification of the rdeptree dependency-tree tool against its specification.

The development shallowly embeds the core of the program: the name
normalizer and node builder (src/dag.rs), the dependency-graph assembly
(src/dag.rs, with the filesystem collaborator abstracted to a list of
line sequences as the spec prescribes), the root finder (src/main.rs)
and the tree renderer (src/render.rs).  Strings are Lean `String`s,
Rust `HashSet`s become duplicate-free lists built by guarded insertion,
and the Rust `HashMap` becomes an association list with overwrite
semantics.  The pest grammar file `rules.pest` is referenced by
src/parser.rs but is not part of the sources; the line productions and
the version-comparison sub-grammar are therefore modelled from the
specification, as noted on each such definition.
-/

/-- Characters collapsed by the name-normalization regex `[-_.]+`
(`DISTRMETA_NAME_NORMALIZE_REGEX` in src/dag.rs). -/
def isSepChar (c : Char) : Bool := c == '-' || c == '_' || c == '.'

/-- Shallow embedding of `Regex::replace_all` for the pattern `[-_.]+`:
every maximal run of separator characters is replaced by the replacement
string `rep`.  The boolean flag records whether the previous character was
part of a separator run, so the replacement is emitted once per run. -/
def squashSeps (rep : List Char) : Bool → List Char → List Char
  | _, [] => []
  | inRun, c :: rest =>
    if isSepChar c then
      (if inRun then [] else rep) ++ squashSeps rep true rest
    else
      c :: squashSeps rep false rest

/-- Embedding of `normalize_name` from src/dag.rs: replace every maximal run
of `-`, `_`, `.` with `replace_to`, then lowercase the result (Rust
`str::to_lowercase`, embedded on the basic-latin range via `Char.toLower`). -/
def normalize_name (name : String) (replace_to : String) : String :=
  ⟨(squashSeps replace_to.data false name.data).map Char.toLower⟩

/-! ### The metadata line grammar

The pest grammar file `rules.pest` is loaded by src/parser.rs but is not
among the repository sources; the productions below are therefore modelled
from the specification (sections 4.2 and 6), with pest's prefix-matching
semantics for `Rule::version_comparison` (the matched span of a successful
parse is the consumed prefix of the input, as exercised by the tests in
src/dag.rs). -/

/-- Whitespace accepted around keywords and operators. -/
def isWsChar (c : Char) : Bool := c == ' ' || c == '\t'

/-- Characters of a distribution-name token: the charset `[A-Za-z0-9._-]`. -/
def isNameChar (c : Char) : Bool := c.isAlphanum || c == '.' || c == '_' || c == '-'

/-- Characters that may appear in a version token: release digits, qualifier
letters, `.` separators, epoch `!`, local-version `+` and wildcard `*`. -/
def isVerChar (c : Char) : Bool := c.isAlphanum || c == '.' || c == '+' || c == '!' || c == '*'

/-- Case-insensitive literal keyword matching: drops the pattern from the
front of the input, comparing characters after `Char.toLower`. -/
def stripPrefixCI : List Char → List Char → Option (List Char)
  | [], l => some l
  | _ :: _, [] => none
  | p :: ps, c :: cs => if p.toLower == c.toLower then stripPrefixCI ps cs else none

/-- Case-sensitive literal keyword matching. -/
def stripPrefixLit : List Char → List Char → Option (List Char)
  | [], l => some l
  | _ :: _, [] => none
  | p :: ps, c :: cs => if p == c then stripPrefixLit ps cs else none

/-- Modelled from the spec: a version token (section 4.2) starts with a digit
(release segment or epoch) and extends over the maximal run of version
characters; the matched substring is captured verbatim, with no semantic
interpretation.  Returns the token and the unconsumed remainder. -/
def parseVersionTok (l : List Char) : Option (List Char × List Char) :=
  match l with
  | [] => none
  | c :: _ =>
    if c.isDigit then some (l.takeWhile isVerChar, l.dropWhile isVerChar) else none

/-- Modelled from the spec: the name-declaration production
(`distribution_name_row` of rules.pest, absent from the sources) —
case-insensitive keyword `Name:`, optional whitespace, one
`[A-Za-z0-9._-]+` token, end of input.  Returns the raw captured name. -/
def parseNameRow (l : List Char) : Option (List Char) :=
  match stripPrefixCI "Name:".data l with
  | none => none
  | some rest =>
    let rest2 := rest.dropWhile isWsChar
    let tok := rest2.takeWhile isNameChar
    if tok.isEmpty then none
    else if (rest2.dropWhile isNameChar).isEmpty then some tok
    else none

/-- Modelled from the spec: the version-declaration production
(`distribution_version_row` of rules.pest, absent from the sources) —
case-insensitive keyword `Version:`, optional whitespace, one version
token captured verbatim, end of input. -/
def parseVersionRow (l : List Char) : Option (List Char) :=
  match stripPrefixCI "Version:".data l with
  | none => none
  | some rest =>
    let rest2 := rest.dropWhile isWsChar
    match parseVersionTok rest2 with
    | none => none
    | some (tok, rem) => if rem.isEmpty then some tok else none

/-- Modelled from the spec: skip an optional bracketed extras list, which the
dependency production discards. -/
def skipExtras : List Char → List Char
  | '[' :: rest => (rest.dropWhile (fun c => !(c == ']'))).drop 1
  | l => l

/-- Modelled from the spec: trim one pair of surrounding parentheses from the
captured constraint text. -/
def stripParens (l : List Char) : List Char :=
  match l with
  | '(' :: rest => if rest.getLast? == some ')' then rest.dropLast else '(' :: rest
  | _ => l

/-- Modelled from the spec: the dependency-declaration production
(`required_distribution_row` of rules.pest, absent from the sources) —
literal keyword `Requires-Dist:`, optional whitespace, a distribution-name
token, an optional discarded extras list, then the entire remaining text
(constraint clauses and environment marker) captured as the raw
`dependency_str` without being re-parsed by this production.  Returns the
captured name token and the raw remainder. -/
def parseRequiresRow (l : List Char) : Option (List Char × List Char) :=
  match stripPrefixLit "Requires-Dist:".data l with
  | none => none
  | some rest =>
    let rest2 := rest.dropWhile isWsChar
    let nameTok := rest2.takeWhile isNameChar
    if nameTok.isEmpty then none
    else
      let afterName := skipExtras (rest2.dropWhile isNameChar)
      some (nameTok, stripParens (afterName.dropWhile isWsChar))

/-- Modelled from the spec: the comparison operators of the
version-comparison sub-grammar, longest first so that prefix matching picks
the longest operator. -/
def comparisonOps : List (List Char) :=
  ["===".data, "==".data, "!=".data, "<=".data, ">=".data, "~=".data, "<".data, ">".data]

/-- Match one comparison operator at the front of the input. -/
def parseOp (l : List Char) : Option (List Char × List Char) :=
  match comparisonOps.find? (fun op => op.isPrefixOf l) with
  | some op => some (op, l.drop op.length)
  | none => none

/-- Modelled from the spec: one clause of the version-comparison sub-grammar,
`<operator><version-token>`, with optional whitespace between operator and
version as exercised by the repository tests.  Returns the consumed span and
the remainder. -/
def parseClause (l : List Char) : Option (List Char × List Char) :=
  match parseOp l with
  | none => none
  | some (op, rest) =>
    let ws := rest.takeWhile isWsChar
    let rest2 := rest.dropWhile isWsChar
    match parseVersionTok rest2 with
    | none => none
    | some (v, rem) => some (op ++ ws ++ v, rem)

/-- Modelled from the spec: further comma-separated clauses of the
version-comparison sub-grammar; stops (without consuming) as soon as no
further `,<clause>` matches.  Fuelled by the remaining length, which bounds
the number of iterations. -/
def moreClauses : Nat → List Char → List Char × List Char
  | 0, l => ([], l)
  | fuel + 1, l =>
    match l with
    | ',' :: rest =>
      let ws := rest.takeWhile isWsChar
      let rest2 := rest.dropWhile isWsChar
      match parseClause rest2 with
      | none => ([], ',' :: rest)
      | some (cl, rem) =>
        let (more, fin) := moreClauses fuel rem
        (',' :: (ws ++ cl ++ more), fin)
    | _ => ([], l)

/-- Modelled from the spec: `Rule::version_comparison` — one or more
comma-separated comparison clauses.  Per pest semantics the parse succeeds on
any input starting with a valid clause list and the matched span
(`Pair::as_str` in `DistributionMeta::from_parsed_file`) is the consumed
prefix, which strips a trailing environment-marker clause. -/
def version_comparison (l : List Char) : Option (List Char) :=
  match parseClause l with
  | none => none
  | some (cl, rem) => some (cl ++ (moreClauses rem.length rem).1)

/-! ### Node builder (src/dag.rs) -/

/-- Embedding of the `ParsedLine` enum from src/dag.rs. -/
inductive ParsedLine where
  | Meta : String → String → ParsedLine
  | Dependency : String → String → ParsedLine
deriving DecidableEq

/-- Embedding of the tail of `parse_line` from src/dag.rs: a parsed row whose
(lowercased) key starts with `name` or `version` is returned as `Meta`,
anything else as `Dependency`.  The key of a name or version row is its
lowercased keyword; the key of a dependency row is the lowercased dependency
name. -/
def classifyKV (k v : List Char) : ParsedLine :=
  if "name".data.isPrefixOf k || "version".data.isPrefixOf k then
    ParsedLine.Meta ⟨k⟩ ⟨v⟩
  else
    ParsedLine.Dependency ⟨k⟩ ⟨v⟩

/-- Embedding of `parse_line` from src/dag.rs: try the name row, version row
and dependency row productions in order; on the first match return the
key/value pair routed through `classifyKV`. -/
def parse_line (line : String) : Option ParsedLine :=
  match parseNameRow line.data with
  | some v => some (classifyKV "name".data v)
  | none =>
    match parseVersionRow line.data with
    | some v => some (classifyKV "version".data v)
    | none =>
      match parseRequiresRow line.data with
      | some (n, v) => some (classifyKV (n.map Char.toLower) v)
      | none => none

/-- Embedding of `RequiredDistribution` from src/dag.rs. -/
structure RequiredDistribution where
  name : String
  required_version : String
deriving DecidableEq

/-- Embedding of `RequiredDistribution::from_str`: the name is normalized,
the version text stored verbatim. -/
def RequiredDistribution.fromStr (name version : String) : RequiredDistribution :=
  ⟨normalize_name name "-", version⟩

/-- Embedding of `DistributionMeta` from src/dag.rs; the `HashSet` of
dependencies becomes a duplicate-free list. -/
structure DistributionMeta where
  installed_version : String
  dependencies : List RequiredDistribution
deriving DecidableEq

/-- Set-semantics insertion used to model `HashSet::insert`: an element
already present is not added again. -/
def insertSet {α : Type} [DecidableEq α] (x : α) (s : List α) : List α :=
  if x ∈ s then s else s ++ [x]

/-- Validate the raw dependency pairs against `Rule::version_comparison` and
collect `RequiredDistribution` values, as the loop inside
`DistributionMeta::from_parsed_file` does; `none` models the early return
with the constraint-parse error. -/
def collectDeps : List (String × String) → List RequiredDistribution →
    Option (List RequiredDistribution)
  | [], acc => some acc
  | (n, ve) :: rest, acc =>
    match version_comparison ve.data with
    | none => none
    | some matched =>
      collectDeps rest (insertSet (RequiredDistribution.fromStr n ⟨matched⟩) acc)

/-- Embedding of `DistributionMeta::from_parsed_file` from src/dag.rs. -/
def DistributionMeta.from_parsed_file (installed_version : String)
    (dependencies : List (String × String)) : Except String DistributionMeta :=
  match collectDeps dependencies [] with
  | none => Except.error "Failed to parse dependency version expression"
  | some parsed => Except.ok ⟨installed_version, parsed⟩

/-- State threaded through the line loop of `node_from_file_iter`. -/
structure ScanState where
  name : Option String
  version : Option String
  dependencies : List (String × String)
deriving DecidableEq

/-- One step of the line loop of `node_from_file_iter` from src/dag.rs. -/
def scanLine (st : ScanState) (line : String) : ScanState :=
  match parse_line line with
  | none => st
  | some (ParsedLine.Meta k v) =>
    if "name".data.isPrefixOf k.data then { st with name := some v }
    else if "version".data.isPrefixOf k.data then { st with version := some v }
    else st
  | some (ParsedLine.Dependency k v) =>
    { st with dependencies := insertSet (k, v) st.dependencies }

/-- The validation tail of `node_from_file_iter` from src/dag.rs: require a
name (`"Can not parse package name from file"` models the `MissingName`
outcome), then a version (`"Can not parse version name from file"` models
`MissingVersion`), build the `DistributionMeta` and key the node by the
(twice-)normalized distribution name. -/
def finishNode (st : ScanState) : Except String (String × DistributionMeta) :=
  match st.name with
  | none => Except.error "Can not parse package name from file"
  | some n =>
    match st.version with
    | none => Except.error "Can not parse version name from file"
    | some v =>
      match DistributionMeta.from_parsed_file v st.dependencies with
      | Except.error e => Except.error e
      | Except.ok dm =>
        Except.ok (normalize_name (normalize_name n "-") "-", dm)

/-- Embedding of `node_from_file_iter` from src/dag.rs: scan all lines with
the parse loop, then validate and construct the node. -/
def node_from_file_iter (lines : List String) :
    Except String (String × DistributionMeta) :=
  finishNode (lines.foldl scanLine ⟨none, none, []⟩)

/-! ### Graph assembly (src/dag.rs) -/

/-- Embedding of the `DependencyDag` map as an association list. -/
abbrev DependencyDag := List (String × DistributionMeta)

/-- `HashMap::insert` with overwrite semantics: any previous binding of the
key is dropped and the new binding recorded. -/
def dagInsert (k : String) (v : DistributionMeta) (dag : DependencyDag) :
    DependencyDag :=
  (dag.filter (fun p => !(p.1 == k))) ++ [(k, v)]

/-- The loop of `get_dep_dag_from_env` from src/dag.rs with the filesystem
collaborator abstracted away: each element of `sources` is the pre-truncated
line sequence of one distribution's metadata file, and a node failure
propagates immediately through `?`. -/
def buildDag (acc : DependencyDag) : List (List String) → Except String DependencyDag
  | [] => Except.ok acc
  | src :: rest =>
    match node_from_file_iter src with
    | Except.error e => Except.error e
    | Except.ok (k, v) => buildDag (dagInsert k v acc) rest

/-- Embedding of `get_dep_dag_from_env` from src/dag.rs over abstract
metadata sources. -/
def get_dep_dag_from_env (sources : List (List String)) :
    Except String DependencyDag :=
  buildDag [] sources

/-! ### Root finder (src/main.rs) -/

/-- Embedding of the `non_empty_dependenices_names` computation in
src/main.rs: the dependency names referenced by any node whose dependency
set is non-empty (collected there into a `HashSet`; only membership is ever
used, so a list models it). -/
def non_empty_dependencies_names (dag : DependencyDag) : List String :=
  ((dag.map Prod.snd).filter (fun m => !m.dependencies.isEmpty)).flatMap
    (fun m => m.dependencies.map RequiredDistribution.name)

/-- Embedding of the `top_level_distributions` computation in src/main.rs:
all graph keys that are not referenced as a dependency name. -/
def top_level_distributions (dag : DependencyDag) : List String :=
  (dag.map Prod.fst).filter (fun k => !((non_empty_dependencies_names dag).contains k))

/-! ### Tree renderer (src/render.rs) -/

/-- Embedding of `dag.get(node_name)` in src/render.rs. -/
def renderLookup (dag : DependencyDag) (k : String) : Option DistributionMeta :=
  (dag.find? (fun p => p.1 == k)).map Prod.snd

/-- The placeholder `DistributionMeta` substituted by src/render.rs for a
node name absent from the graph. -/
def placeholderMeta : DistributionMeta := ⟨"Not-installed", []⟩

/-- The metadata `render_dag` actually uses for a node: the graph entry if
present, the `Not-installed` placeholder otherwise. -/
def effMeta (dag : DependencyDag) (k : String) : DistributionMeta :=
  (renderLookup dag k).getD placeholderMeta

/-- One output line of `render_dag` from src/render.rs: `level` dashes, the
node name, and the bracketed required/installed annotations. -/
def render_line (name : String) (req : Option String) (installed : String)
    (level : Nat) : String :=
  let pre : String := ⟨List.replicate level '-'⟩
  match req with
  | some r => pre ++ name ++ " [required=" ++ r ++ ", installed=" ++ installed ++ "]"
  | none => pre ++ name ++ " [installed=" ++ installed ++ "]"

mutual
/-- Fuelled embedding of the recursive `render_dag` from src/render.rs,
returning the list of printed lines.  The source recursion carries no fuel
and no cycle detection; `none` here models a run that fails to complete
within `fuel` nested visits, so "the recursion terminates" becomes "some
fuel returns `some`". -/
def render_dag (dag : DependencyDag) (fuel : Nat) (node_name : String)
    (node_required_ver : Option String) (level : Nat) : Option (List String) :=
  match fuel with
  | 0 => none
  | Nat.succ f =>
    match renderDeps dag f (effMeta dag node_name).dependencies level with
    | none => none
    | some rest =>
      some (render_line node_name node_required_ver
        (effMeta dag node_name).installed_version level :: rest)
termination_by (fuel, 0)

/-- The `for dep in &meta.dependencies` loop of `render_dag`: render every
dependency at `level + 4`, passing its raw `required_version` as the label. -/
def renderDeps (dag : DependencyDag) (fuel : Nat) (ds : List RequiredDistribution)
    (level : Nat) : Option (List String) :=
  match ds with
  | [] => some []
  | d :: rest =>
    match render_dag dag fuel d.name (some d.required_version) (level + 4),
          renderDeps dag fuel rest level with
    | some out, some more => some (out ++ more)
    | _, _ => none
termination_by (fuel, ds.length + 1)
end

/-- The visit tree of `render_dag` starting at `name` is finite: every chain
of dependency edges (following placeholder nodes as well, which have no
outgoing edges) reaches a node with an empty dependency set. -/
inductive Terminates (dag : DependencyDag) : String → Prop where
  | intro : ∀ name : String,
      (∀ d : RequiredDistribution, d ∈ (effMeta dag name).dependencies →
        Terminates dag d.name) →
      Terminates dag name

/-- Reachability along the dependency edges followed by the renderer. -/
inductive Reaches (dag : DependencyDag) (a : String) : String → Prop where
  | refl : Reaches dag a a
  | step : ∀ b : String, Reaches dag a b →
      ∀ d : RequiredDistribution, d ∈ (effMeta dag b).dependencies →
      Reaches dag a d.name

/-! ### Concrete inputs used by the claims -/

/-- A line is a name declaration of the grammar. -/
def is_name_declaration (line : String) : Bool := (parseNameRow line.data).isSome

/-- A line is a version declaration of the grammar. -/
def is_version_declaration (line : String) : Bool := (parseVersionRow line.data).isSome

/-- The builder records a name from this line (dag.rs routes every parsed row
whose lowercased key starts with `name` — the name keyword, but also a
dependency name such as `nameparser` — into the name slot). -/
def sets_name (line : String) : Bool :=
  match parse_line line with
  | some (ParsedLine.Meta k _) => "name".data.isPrefixOf k.data
  | _ => false

/-- The builder records a version from this line. -/
def sets_version (line : String) : Bool :=
  match parse_line line with
  | some (ParsedLine.Meta k _) =>
    !("name".data.isPrefixOf k.data) && "version".data.isPrefixOf k.data
  | _ => false

/-- The metadata lines of claim C1 (also the repository test
`distr_meta_from_iter_simple`). -/
def c1_lines : List String :=
  ["Name: Sample_Package", "Version: 0.0.1",
   "Requires-Dist: pyarrow>=10.0.1; extra == \"pyarrow\""]

/-- Three numpy declarations that differ only in their environment-marker
suffixes (identical version bound). -/
def c2_marker_only_lines : List String :=
  ["Name: Sample_Package", "Version: 0.0.1",
   "Requires-Dist: numpy>=1.22.4; python_version < \"3.11\"",
   "Requires-Dist: numpy>=1.22.4; python_version == \"3.11\"",
   "Requires-Dist: numpy>=1.22.4; python_version >= \"3.12\""]

/-- The three numpy declarations of the repository test
`distr_meta_from_iter_repeating_distrs_different_version`: different
markers and different version bounds. -/
def c2_repo_lines : List String :=
  ["Name: Sample_Package", "Version: 0.0.1",
   "Requires-Dist: numpy>=1.22.4; python_version < \"3.11\"",
   "Requires-Dist: numpy>=1.23.2; python_version == \"3.11\"",
   "Requires-Dist: numpy>=1.26.0; python_version >= \"3.12\""]

/-- A line sequence with no name declaration whose dependency row's name
starts with `name`, which dag.rs misroutes into the name slot. -/
def c3_hijack_lines : List String :=
  ["Version: 1.0", "Requires-Dist: nameparser>=1.0"]

/-- A metadata source whose dependency row carries no constraint text, so
re-validation of the empty constraint fails. -/
def c4_bad_source : List String :=
  ["Name: a", "Version: 0.0.1", "Requires-Dist: foo"]

/-- The two-node graph of claim C6: `a` depends on `b`, `b` on nothing. -/
def ab_dag : DependencyDag :=
  [("a", ⟨"1.0", [⟨"b", ">=1.0"⟩]⟩), ("b", ⟨"2.0", []⟩)]

/-- A one-node graph whose single node depends on itself. -/
def loop_dag : DependencyDag :=
  [("a", ⟨"1.0", [⟨"a", ">=1.0"⟩]⟩)]

/-! ## Theorems -/

theorem char_toNat_ofNat {n : Nat} (h : n < 55296) : (Char.ofNat n).toNat = n := by
  rw [Char.ofNat, dif_pos (Or.inl h)]
  simp [Char.ofNatAux, Char.toNat, UInt32.toNat]

theorem isSepChar_iff_toNat (c : Char) :
    isSepChar c = true ↔ (c.toNat = 45 ∨ c.toNat = 95 ∨ c.toNat = 46) := by
  have hchar : ∀ (d : Char) (m : Nat), d.toNat = m → c.toNat = m → c = d := by
    intro d m hd hc
    have : Char.ofNat c.toNat = Char.ofNat d.toNat := by rw [hd, hc]
    rwa [Char.ofNat_toNat, Char.ofNat_toNat] at this
  constructor
  · intro h
    simp only [isSepChar, Bool.or_eq_true, beq_iff_eq] at h
    rcases h with (h | h) | h <;> subst h <;> decide
  · intro h
    rcases h with h | h | h
    · have : c = '-' := hchar '-' 45 (by decide) h
      subst this; decide
    · have : c = '_' := hchar '_' 95 (by decide) h
      subst this; decide
    · have : c = '.' := hchar '.' 46 (by decide) h
      subst this; decide

theorem toLower_toNat_of_upper {c : Char} (h : 65 ≤ c.toNat ∧ c.toNat ≤ 90) :
    c.toLower.toNat = c.toNat + 32 := by
  rw [Char.toLower, if_pos ⟨h.1, h.2⟩]
  exact char_toNat_ofNat (by omega)

theorem toLower_eq_of_not_upper {c : Char} (h : ¬(65 ≤ c.toNat ∧ c.toNat ≤ 90)) :
    c.toLower = c := by
  rw [Char.toLower, if_neg]
  intro hc
  exact h ⟨hc.1, hc.2⟩

theorem isSepChar_toLower (c : Char) : isSepChar c.toLower = isSepChar c := by
  by_cases h : 65 ≤ c.toNat ∧ c.toNat ≤ 90
  · have h1 : c.toLower.toNat = c.toNat + 32 := toLower_toNat_of_upper h
    have h2 : isSepChar c.toLower = false := by
      rw [← Bool.not_eq_true, isSepChar_iff_toNat]
      omega
    have h3 : isSepChar c = false := by
      rw [← Bool.not_eq_true, isSepChar_iff_toNat]
      omega
    rw [h2, h3]
  · rw [toLower_eq_of_not_upper h]

theorem toLower_toLower (c : Char) : c.toLower.toLower = c.toLower := by
  by_cases h : 65 ≤ c.toNat ∧ c.toNat ≤ 90
  · have h1 : c.toLower.toNat = c.toNat + 32 := toLower_toNat_of_upper h
    exact toLower_eq_of_not_upper (by omega)
  · rw [toLower_eq_of_not_upper h, toLower_eq_of_not_upper h]

theorem toLower_dash : Char.toLower '-' = '-' := by decide

theorem squashSeps_cons_sep_true {c : Char} (rep : List Char) (l : List Char)
    (h : isSepChar c = true) :
    squashSeps rep true (c :: l) = squashSeps rep true l := by
  simp [squashSeps, h]

theorem squashSeps_cons_sep_false {c : Char} (rep : List Char) (l : List Char)
    (h : isSepChar c = true) :
    squashSeps rep false (c :: l) = rep ++ squashSeps rep true l := by
  simp [squashSeps, h]

theorem squashSeps_cons_nonsep {c : Char} (rep : List Char) (b : Bool) (l : List Char)
    (h : isSepChar c = false) :
    squashSeps rep b (c :: l) = c :: squashSeps rep false l := by
  simp [squashSeps, h]

/-- After one squashing pass, squashing the lowercased result again is the
identity: lowercasing never creates or destroys separator characters. -/
theorem squashSeps_toLower_squashSeps (l : List Char) :
    ∀ b : Bool,
      squashSeps ['-'] b ((squashSeps ['-'] b l).map Char.toLower)
        = (squashSeps ['-'] b l).map Char.toLower := by
  induction l with
  | nil => intro b; simp [squashSeps]
  | cons c rest ih =>
    intro b
    by_cases hc : isSepChar c = true
    · cases b with
      | true =>
        rw [squashSeps_cons_sep_true _ _ hc]
        exact ih true
      | false =>
        rw [squashSeps_cons_sep_false _ _ hc]
        have hstep : (['-'] ++ squashSeps ['-'] true rest).map Char.toLower
            = '-' :: (squashSeps ['-'] true rest).map Char.toLower := by
          simp [toLower_dash]
        rw [hstep, squashSeps_cons_sep_false _ _ (by decide : isSepChar '-' = true)]
        rw [ih true]
        rfl
    · have hc0 : isSepChar c = false := eq_false_of_ne_true hc
      have hc' : isSepChar c.toLower = false := by
        rw [isSepChar_toLower]; exact hc0
      rw [squashSeps_cons_nonsep _ _ _ hc0, List.map_cons,
        squashSeps_cons_nonsep _ _ _ hc', ih false]

/-- Idempotence of `normalize_name` with replacement `"-"`. -/
theorem normalize_name_idem (x : String) :
    normalize_name (normalize_name x "-") "-" = normalize_name x "-" := by
  unfold normalize_name
  apply congrArg String.mk
  have h := squashSeps_toLower_squashSeps x.data false
  rw [show ("-" : String).data = ['-'] from rfl]
  rw [h, List.map_map]
  apply List.map_congr_left
  intro c _
  exact toLower_toLower c

/-- Claim C5: name normalization with replacement `"-"` is idempotent
(`normalize(normalize(x)) = normalize(x)` for every string `x`) and is
case- and separator-insensitive on the given examples:
`normalize("Sample_Package") = normalize("sample-package") = "sample-package"`. -/
theorem claim_C5_normalize_idempotent :
    (∀ x : String, normalize_name (normalize_name x "-") "-" = normalize_name x "-")
    ∧ normalize_name "Sample_Package" "-" = "sample-package"
    ∧ normalize_name "sample-package" "-" = "sample-package" :=
  ⟨normalize_name_idem, by decide, by decide⟩

theorem collectDeps_none_of_bad (deps : List (String × String)) :
    ∀ acc : List RequiredDistribution,
      (∃ p ∈ deps, version_comparison (Prod.snd p).data = none) →
      collectDeps deps acc = none := by
  induction deps with
  | nil =>
    intro acc h
    rcases h with ⟨p, hp, _⟩
    cases hp
  | cons q rest ih =>
    intro acc h
    rcases q with ⟨n, ve⟩
    cases hv : version_comparison ve.data with
    | none => simp [collectDeps, hv]
    | some m =>
      rcases h with ⟨p, hp, hbad⟩
      rcases List.mem_cons.mp hp with rfl | hmem
      · rw [hv] at hbad; cases hbad
      · simp only [collectDeps, hv]
        exact ih _ ⟨p, hmem, hbad⟩

theorem buildDag_error_of_bad (sources : List (List String)) :
    ∀ acc : DependencyDag,
      (∃ src ∈ sources, ∃ e, node_from_file_iter src = Except.error e) →
      ∃ e, buildDag acc sources = Except.error e := by
  induction sources with
  | nil =>
    intro acc h
    rcases h with ⟨s, hs, _⟩
    cases hs
  | cons s0 rest ih =>
    intro acc h
    cases hnode : node_from_file_iter s0 with
    | error e => exact ⟨e, by simp [buildDag, hnode]⟩
    | ok kv =>
      rcases h with ⟨s, hs, e, he⟩
      rcases List.mem_cons.mp hs with rfl | hmem
      · rw [hnode] at he; cases he
      · rcases kv with ⟨k, v⟩
        have hrest := ih (dagInsert k v acc) ⟨s, hmem, e, he⟩
        simpa [buildDag, hnode] using hrest

/-- Claim C1 counterexample: on the spec's own example lines the builder
stores the dependency constraint with the environment-marker suffix
stripped (the span matched by `Rule::version_comparison`), not the full raw
remainder, exactly as the repository test `distr_meta_from_iter_simple`
asserts. -/
theorem claim_C1_counterexample :
    node_from_file_iter c1_lines
      = Except.ok ("sample-package", ⟨"0.0.1", [⟨"pyarrow", ">=10.0.1"⟩]⟩)
    ∧ (">=10.0.1" : String) ≠ ">=10.0.1; extra == \"pyarrow\"" :=
  ⟨rfl, by decide⟩

/-- Claim C1 (amended): for the input lines of the claim the builder
succeeds with distribution name `sample-package`, installed version
`0.0.1`, and exactly one dependency named `pyarrow` whose
`required_version` is the marker-stripped constraint `>=10.0.1`. -/
theorem claim_C1_builder_output :
    node_from_file_iter c1_lines
      = Except.ok ("sample-package", ⟨"0.0.1", [⟨"pyarrow", ">=10.0.1"⟩]⟩) := rfl

/-- Claim C2 counterexample: three numpy declarations that differ only in
their environment markers (identical version bound) collapse to a single
dependency entry, because the stored `required_version` is the
marker-stripped constraint and dependency equality is over
`(name, required_version)`. -/
theorem claim_C2_counterexample :
    node_from_file_iter c2_marker_only_lines
      = Except.ok ("sample-package", ⟨"0.0.1", [⟨"numpy", ">=1.22.4"⟩]⟩)
    ∧ ([(⟨"numpy", ">=1.22.4"⟩ : RequiredDistribution)]).length = 1 :=
  ⟨rfl, rfl⟩

/-- Claim C2 (amended): repeated declarations of the same dependency name
stay distinct exactly when their marker-stripped constraints differ — the
repository's three numpy declarations with three different version bounds
yield a dependency set of size 3. -/
theorem claim_C2_distinct_constraints :
    node_from_file_iter c2_repo_lines
      = Except.ok ("sample-package",
          ⟨"0.0.1",
           [⟨"numpy", ">=1.22.4"⟩, ⟨"numpy", ">=1.23.2"⟩, ⟨"numpy", ">=1.26.0"⟩]⟩)
    ∧ ([⟨"numpy", ">=1.22.4"⟩, ⟨"numpy", ">=1.23.2"⟩,
        (⟨"numpy", ">=1.26.0"⟩ : RequiredDistribution)]).length = 3 :=
  ⟨rfl, rfl⟩

/-- Claim C9 counterexample: `DistributionMeta::from_parsed_file` accepts an
empty installed version — it performs no emptiness validation. -/
theorem claim_C9_counterexample :
    DistributionMeta.from_parsed_file "" [] = Except.ok ⟨"", []⟩ := rfl

/-- Claim C9 (amended): the constructor stores `installed_version` verbatim
and never rejects it; a constructed `DistributionMeta` carries exactly the
version string it was given, including the empty string.  Construction only
fails on dependency-constraint re-validation. -/
theorem claim_C9_version_stored_verbatim :
    ∀ (v : String) (deps : List (String × String)) (dm : DistributionMeta),
      DistributionMeta.from_parsed_file v deps = Except.ok dm →
      dm.installed_version = v := by
  intro v deps dm h
  unfold DistributionMeta.from_parsed_file at h
  cases hc : collectDeps deps [] with
  | none => rw [hc] at h; cases h
  | some parsed => rw [hc] at h; cases h; rfl

theorem claim_C9_witness :
    DistributionMeta.installed_version ⟨"", []⟩ = "" :=
  claim_C9_version_stored_verbatim "" [] ⟨"", []⟩ rfl

/-- Claim C4: if any collected dependency's constraint text fails
re-validation against the version-comparison sub-grammar, node construction
fails as a whole with the constraint error (no partial node), and graph
assembly propagates any single node failure as a hard error, producing no
graph for the environment. -/
theorem claim_C4_fail_fast :
    (∀ (v : String) (deps : List (String × String)),
      (∃ p ∈ deps, version_comparison (Prod.snd p).data = none) →
      DistributionMeta.from_parsed_file v deps
        = Except.error "Failed to parse dependency version expression")
    ∧ (∀ sources : List (List String),
      (∃ src ∈ sources, ∃ e, node_from_file_iter src = Except.error e) →
      ∃ e, get_dep_dag_from_env sources = Except.error e) := by
  constructor
  · intro v deps h
    unfold DistributionMeta.from_parsed_file
    rw [collectDeps_none_of_bad deps [] h]
  · intro sources h
    exact buildDag_error_of_bad sources [] h

theorem claim_C4_witness :
    DistributionMeta.from_parsed_file "1.0" [("foo", "")]
      = Except.error "Failed to parse dependency version expression"
    ∧ ∃ e, get_dep_dag_from_env [c4_bad_source] = Except.error e :=
  ⟨claim_C4_fail_fast.1 "1.0" [("foo", "")] ⟨("foo", ""), by simp, rfl⟩,
   claim_C4_fail_fast.2 [c4_bad_source]
     ⟨c4_bad_source, by simp, "Failed to parse dependency version expression", rfl⟩⟩

theorem scanLine_name_none (st : ScanState) (line : String) :
    (scanLine st line).name = none ↔ st.name = none ∧ sets_name line = false := by
  unfold scanLine sets_name
  cases hp : parse_line line with
  | none => simp
  | some pl =>
    cases pl with
    | Meta k v =>
      cases hn : "name".data.isPrefixOf k.data with
      | true => simp [hn]
      | false =>
        cases hv : "version".data.isPrefixOf k.data with
        | true => simp [hn, hv]
        | false => simp [hn, hv]
    | Dependency k v => simp

theorem scanLine_version_none (st : ScanState) (line : String) :
    (scanLine st line).version = none ↔ st.version = none ∧ sets_version line = false := by
  unfold scanLine sets_version
  cases hp : parse_line line with
  | none => simp
  | some pl =>
    cases pl with
    | Meta k v =>
      cases hn : "name".data.isPrefixOf k.data with
      | true => simp [hn]
      | false =>
        cases hv : "version".data.isPrefixOf k.data with
        | true => simp [hn, hv]
        | false => simp [hn, hv]
    | Dependency k v => simp

theorem foldl_scan_name_none (lines : List String) :
    ∀ st : ScanState, (lines.foldl scanLine st).name = none ↔
      st.name = none ∧ ∀ l ∈ lines, sets_name l = false := by
  induction lines with
  | nil => intro st; simp
  | cons l rest ih =>
    intro st
    rw [List.foldl_cons, ih (scanLine st l), scanLine_name_none,
      List.forall_mem_cons]
    tauto

theorem foldl_scan_version_none (lines : List String) :
    ∀ st : ScanState, (lines.foldl scanLine st).version = none ↔
      st.version = none ∧ ∀ l ∈ lines, sets_version l = false := by
  induction lines with
  | nil => intro st; simp
  | cons l rest ih =>
    intro st
    rw [List.foldl_cons, ih (scanLine st l), scanLine_version_none,
      List.forall_mem_cons]
    tauto

/-- Claim C3 counterexample: a sequence with no name declaration whose
dependency row is named `nameparser` makes the builder succeed (the
lowercased dependency key starts with `name`, so `parse_line` routes it into
the name slot), instead of returning the missing-name error that the claim
requires for every sequence without a name declaration. -/
theorem claim_C3_counterexample :
    (∀ l ∈ c3_hijack_lines, is_name_declaration l = false)
    ∧ node_from_file_iter c3_hijack_lines = Except.ok (">=1-0", ⟨"1.0", []⟩) :=
  ⟨by decide, rfl⟩

/-- Claim C3 (amended): the outcome is governed by which lines *set* the
name or version slots — name declarations, but also dependency declarations
whose lowercased name starts with `name` (or `version`).  If no line sets
the name, the builder returns the missing-name error (this check precedes
the version check, so it wins when both are missing); if some line sets the
name and no line sets the version, it returns the missing-version error.
Both outcomes depend only on the presence of such lines, not on their
order. -/
theorem claim_C3_missing_declaration_errors (lines : List String) :
    ((∀ l ∈ lines, sets_name l = false) →
      node_from_file_iter lines = Except.error "Can not parse package name from file")
    ∧ ((∃ l ∈ lines, sets_name l = true) →
      (∀ l ∈ lines, sets_version l = false) →
      node_from_file_iter lines = Except.error "Can not parse version name from file") := by
  constructor
  · intro h
    have hn : (lines.foldl scanLine ⟨none, none, []⟩).name = none :=
      (foldl_scan_name_none lines _).mpr ⟨rfl, h⟩
    unfold node_from_file_iter finishNode
    rw [hn]
  · intro hex hv
    have hn : ¬((lines.foldl scanLine ⟨none, none, []⟩).name = none) := by
      rw [foldl_scan_name_none]
      rintro ⟨-, hall⟩
      rcases hex with ⟨l, hl, hset⟩
      rw [hall l hl] at hset
      cases hset
    rcases Option.ne_none_iff_exists'.mp hn with ⟨n, hsome⟩
    have hver : (lines.foldl scanLine ⟨none, none, []⟩).version = none :=
      (foldl_scan_version_none lines _).mpr ⟨rfl, hv⟩
    unfold node_from_file_iter finishNode
    rw [hsome, hver]

theorem claim_C3_witness :
    node_from_file_iter ["Version: 0.0.1"]
      = Except.error "Can not parse package name from file"
    ∧ node_from_file_iter ["Name: foo"]
      = Except.error "Can not parse version name from file" :=
  ⟨(claim_C3_missing_declaration_errors ["Version: 0.0.1"]).1 (by decide),
   (claim_C3_missing_declaration_errors ["Name: foo"]).2
     ⟨"Name: foo", by simp, by decide⟩ (by decide)⟩

theorem contains_eq_false_iff {α : Type} [BEq α] [LawfulBEq α] (l : List α) (a : α) :
    (l.contains a = false) ↔ a ∉ l := by
  rw [show l.contains a = List.elem a l from rfl, List.elem_eq_mem,
    decide_eq_false_iff_not]

theorem mem_non_empty_dependencies_names (dag : DependencyDag) (k : String) :
    k ∈ non_empty_dependencies_names dag ↔
      ∃ p ∈ dag, ∃ d ∈ (Prod.snd p).dependencies, RequiredDistribution.name d = k := by
  unfold non_empty_dependencies_names
  simp only [List.mem_flatMap, List.mem_filter, List.mem_map]
  constructor
  · rintro ⟨m, ⟨⟨p, hp, rfl⟩, -⟩, d, hd, rfl⟩
    exact ⟨p, hp, d, hd, rfl⟩
  · rintro ⟨p, hp, d, hd, rfl⟩
    refine ⟨p.2, ⟨⟨p, hp, rfl⟩, ?_⟩, d, hd, rfl⟩
    cases hdeps : p.2.dependencies with
    | nil => rw [hdeps] at hd; cases hd
    | cons a l => simp [hdeps]

/-- Claim C6: a key is a top-level distribution exactly when it is a graph
key that no node's dependency set references by name; on the two-node graph
in which `a` depends on `b` and `b` on nothing, the root set is exactly
`[a]`. -/
theorem claim_C6_roots_are_unreferenced_keys :
    (∀ (dag : DependencyDag) (k : String),
      k ∈ top_level_distributions dag ↔
        (∃ m : DistributionMeta, (k, m) ∈ dag)
        ∧ ∀ p ∈ dag, ∀ d ∈ (Prod.snd p).dependencies, RequiredDistribution.name d ≠ k)
    ∧ top_level_distributions ab_dag = ["a"] := by
  constructor
  · intro dag k
    unfold top_level_distributions
    rw [List.mem_filter]
    constructor
    · rintro ⟨hkey, hnotin⟩
      rcases List.mem_map.mp hkey with ⟨p, hp, rfl⟩
      refine ⟨⟨p.2, by simpa using hp⟩, ?_⟩
      intro q hq d hd hname
      have : p.1 ∈ non_empty_dependencies_names dag :=
        (mem_non_empty_dependencies_names dag p.1).mpr ⟨q, hq, d, hd, hname⟩
      rw [Bool.not_eq_true', contains_eq_false_iff] at hnotin
      exact hnotin this
    · rintro ⟨⟨m, hm⟩, hunref⟩
      refine ⟨List.mem_map.mpr ⟨(k, m), hm, rfl⟩, ?_⟩
      rw [Bool.not_eq_true', contains_eq_false_iff]
      intro hmem
      rcases (mem_non_empty_dependencies_names dag k).mp hmem with ⟨q, hq, d, hd, hname⟩
      exact hunref q hq d hd hname
  · rfl

/-- Claim C7: a node name absent from the graph renders as exactly one line
carrying the `Not-installed` placeholder in the installed slot — the
renderer neither fails nor omits the node, and recurses into no children
because the placeholder's dependency set is empty. -/
theorem claim_C7_absent_renders_placeholder (dag : DependencyDag) (name : String)
    (req : Option String) (level fuel : Nat)
    (h : name ∉ dag.map Prod.fst) :
    render_dag dag (fuel + 1) name req level
      = some [render_line name req "Not-installed" level] := by
  have hl : renderLookup dag name = none := by
    unfold renderLookup
    have hf : dag.find? (fun p => p.1 == name) = none := by
      rw [List.find?_eq_none]
      intro p hp hbeq
      exact h (List.mem_map.mpr ⟨p, hp, beq_iff_eq.mp hbeq⟩)
    rw [hf]
    rfl
  have he : effMeta dag name = placeholderMeta := by
    unfold effMeta
    rw [hl]
    rfl
  unfold render_dag
  rw [he]
  unfold renderDeps
  rfl

theorem claim_C7_witness :
    render_dag ([] : DependencyDag) 1 "pkg" none 0
      = some [render_line "pkg" none "Not-installed" 0] :=
  claim_C7_absent_renders_placeholder ([] : DependencyDag) "pkg" none 0 0 (by decide)

theorem render_dag_zero (dag : DependencyDag) (name : String) (req : Option String)
    (level : Nat) : render_dag dag 0 name req level = none := by
  unfold render_dag
  rfl

theorem render_dag_succ_isSome (dag : DependencyDag) (f : Nat) (name : String)
    (req : Option String) (level : Nat) :
    (render_dag dag (f + 1) name req level).isSome = true ↔
      (renderDeps dag f (effMeta dag name).dependencies level).isSome = true := by
  unfold render_dag
  cases h : renderDeps dag f (effMeta dag name).dependencies level with
  | none => simp [h]
  | some rest => simp [h]

theorem renderDeps_isSome_iff (dag : DependencyDag) (f : Nat) :
    ∀ (ds : List RequiredDistribution) (level : Nat),
      (renderDeps dag f ds level).isSome = true ↔
        ∀ d ∈ ds,
          (render_dag dag f d.name (some d.required_version) (level + 4)).isSome = true := by
  intro ds
  induction ds with
  | nil =>
    intro level
    simp [renderDeps]
  | cons d0 rest ih =>
    intro level
    have hrest := ih level
    rw [List.forall_mem_cons]
    unfold renderDeps
    cases h1 : render_dag dag f d0.name (some d0.required_version) (level + 4) with
    | none => simp_all [h1]
    | some out =>
      cases h2 : renderDeps dag f rest level with
      | none => simp_all [h1, h2]
      | some more => simp_all [h1, h2]

theorem render_dag_isSome_mono (dag : DependencyDag) :
    ∀ f1 f2 : Nat, f1 ≤ f2 → ∀ (name : String) (req : Option String) (level : Nat),
      (render_dag dag f1 name req level).isSome = true →
      (render_dag dag f2 name req level).isSome = true := by
  intro f1
  induction f1 with
  | zero =>
    intro f2 hle name req level hs
    rw [render_dag_zero] at hs
    cases hs
  | succ f ih =>
    intro f2 hle name req level hs
    cases f2 with
    | zero => omega
    | succ f2p =>
      have hle2 : f ≤ f2p := by omega
      rw [render_dag_succ_isSome, renderDeps_isSome_iff] at hs ⊢
      intro d hd
      exact ih f2p hle2 _ _ _ (hs d hd)

theorem exists_uniform_fuel (dag : DependencyDag) (level : Nat) :
    ∀ ds : List RequiredDistribution,
      (∀ d ∈ ds, ∃ f,
        (render_dag dag f d.name (some d.required_version) (level + 4)).isSome = true) →
      ∃ F, ∀ d ∈ ds,
        (render_dag dag F d.name (some d.required_version) (level + 4)).isSome = true := by
  intro ds
  induction ds with
  | nil =>
    intro _
    exact ⟨0, by intro d hd; cases hd⟩
  | cons d0 rest ih =>
    intro h
    rcases h d0 (List.mem_cons_self _ _) with ⟨f0, h0⟩
    rcases ih (fun d hd => h d (List.mem_cons_of_mem _ hd)) with ⟨F, hF⟩
    refine ⟨max f0 F, ?_⟩
    intro d hd
    rcases List.mem_cons.mp hd with rfl | hd2
    · exact render_dag_isSome_mono dag f0 _ (Nat.le_max_left _ _) _ _ _ h0
    · exact render_dag_isSome_mono dag F _ (Nat.le_max_right _ _) _ _ _ (hF d hd2)

theorem terminates_exists_fuel (dag : DependencyDag) :
    ∀ name : String, Terminates dag name →
      ∀ (req : Option String) (level : Nat),
        ∃ f, (render_dag dag f name req level).isSome = true := by
  intro name h
  induction h with
  | intro name hdeps ih =>
    intro req level
    rcases exists_uniform_fuel dag level (effMeta dag name).dependencies
      (fun d hd => ih d hd (some d.required_version) (level + 4)) with ⟨F, hF⟩
    refine ⟨F + 1, ?_⟩
    rw [render_dag_succ_isSome, renderDeps_isSome_iff]
    exact hF

theorem terminates_of_fuel (dag : DependencyDag) :
    ∀ (f : Nat) (name : String) (req : Option String) (level : Nat),
      (render_dag dag f name req level).isSome = true → Terminates dag name := by
  intro f
  induction f with
  | zero =>
    intro name req level h
    rw [render_dag_zero] at h
    cases h
  | succ f ih =>
    intro name req level h
    rw [render_dag_succ_isSome, renderDeps_isSome_iff] at h
    exact Terminates.intro name
      (fun d hd => ih d.name (some d.required_version) (level + 4) (h d hd))

theorem terminates_not_mem_cycle (dag : DependencyDag) (C : List String)
    (hC : ∀ m ∈ C, ∃ d ∈ (effMeta dag m).dependencies, RequiredDistribution.name d ∈ C) :
    ∀ name : String, Terminates dag name → name ∉ C := by
  intro name h
  induction h with
  | intro name hdeps ih =>
    intro hmem
    rcases hC name hmem with ⟨d, hd, hdC⟩
    exact ih d hd hdC

theorem terminates_of_reaches (dag : DependencyDag) (a : String) :
    ∀ b : String, Reaches dag a b → Terminates dag a → Terminates dag b := by
  intro b h
  induction h with
  | refl => exact id
  | step b hab d hd ih =>
    intro ha
    have hb := ih ha
    cases hb with
    | intro _ hdeps => exact hdeps d hd

/-- Claim C8: the renderer's recursive visit from a start node terminates
exactly when every chain of dependency edges from it (placeholder nodes
included, which have no outgoing edges) is finite — captured by the
inductive `Terminates` predicate, whose sole rule requires all children to
terminate and whose base case is the empty dependency set; and since no
cycle detection is performed, whenever a set of nodes that is closed under
choosing a successor inside itself (a cycle) is reachable from the start
node, no amount of fuel makes the recursion finish. -/
theorem claim_C8_nontermination_on_cycles (dag : DependencyDag) (start : String) :
    ((∃ f, (render_dag dag f start none 0).isSome = true) ↔ Terminates dag start)
    ∧ (∀ C : List String, C ≠ [] →
        (∀ m ∈ C, ∃ d ∈ (effMeta dag m).dependencies, RequiredDistribution.name d ∈ C) →
        (∃ m ∈ C, Reaches dag start m) →
        ¬∃ f, (render_dag dag f start none 0).isSome = true) := by
  constructor
  · constructor
    · rintro ⟨f, hf⟩
      exact terminates_of_fuel dag f start none 0 hf
    · intro h
      exact terminates_exists_fuel dag start h none 0
  · rintro C hne hC ⟨m, hmC, hreach⟩ ⟨f, hf⟩
    have hterm : Terminates dag start := terminates_of_fuel dag f start none 0 hf
    have htm : Terminates dag m := terminates_of_reaches dag start m hreach hterm

    exact terminates_not_mem_cycle dag C hC m htm hmC

theorem claim_C8_witness :
    ¬∃ f, (render_dag loop_dag f "a" none 0).isSome = true :=
  (claim_C8_nontermination_on_cycles loop_dag "a").2 ["a"] (by decide) (by decide)
    ⟨"a", by decide, Reaches.refl⟩

theorem collectDeps_names_normalized :
    ∀ (deps : List (String × String)) (acc res : List RequiredDistribution),
      collectDeps deps acc = some res →
      (∀ d ∈ acc, normalize_name d.name "-" = d.name) →
      ∀ d ∈ res, normalize_name d.name "-" = d.name := by
  intro deps
  induction deps with
  | nil =>
    intro acc res h hacc
    injection h with h
    subst h
    exact hacc
  | cons q rest ih =>
    intro acc res h hacc
    rcases q with ⟨n, ve⟩
    cases hv : version_comparison ve.data with
    | none =>
      simp only [collectDeps, hv] at h
      cases h
    | some m =>
      simp only [collectDeps, hv] at h
      apply ih _ _ h
      intro d hd
      unfold insertSet at hd
      by_cases hmem : RequiredDistribution.fromStr n ⟨m⟩ ∈ acc
      · rw [if_pos hmem] at hd
        exact hacc d hd
      · rw [if_neg hmem] at hd
        rcases List.mem_append.mp hd with hd1 | hd2
        · exact hacc d hd1
        · rcases List.mem_singleton.mp hd2 with rfl
          exact normalize_name_idem n

theorem from_parsed_file_names_normalized (v : String)
    (deps : List (String × String)) (dm : DistributionMeta)
    (h : DistributionMeta.from_parsed_file v deps = Except.ok dm) :
    ∀ d ∈ dm.dependencies, normalize_name d.name "-" = d.name := by
  unfold DistributionMeta.from_parsed_file at h
  cases hc : collectDeps deps [] with
  | none => rw [hc] at h; cases h
  | some parsed =>
    rw [hc] at h
    cases h
    exact collectDeps_names_normalized deps [] parsed hc (by intro d hd; cases hd)

theorem node_from_file_iter_normalized (lines : List String) (k : String)
    (dm : DistributionMeta) (h : node_from_file_iter lines = Except.ok (k, dm)) :
    normalize_name k "-" = k
    ∧ ∀ d ∈ dm.dependencies, normalize_name d.name "-" = d.name := by
  unfold node_from_file_iter finishNode at h
  split at h
  · cases h
  · split at h
    · cases h
    · split at h
      · cases h
      · cases h
        exact ⟨normalize_name_idem _,
          from_parsed_file_names_normalized _ _ _ (by assumption)⟩

theorem buildDag_normalized :
    ∀ (sources : List (List String)) (acc dag : DependencyDag),
      buildDag acc sources = Except.ok dag →
      (∀ p ∈ acc, normalize_name (Prod.fst p) "-" = Prod.fst p
        ∧ ∀ d ∈ (Prod.snd p).dependencies, normalize_name d.name "-" = d.name) →
      ∀ p ∈ dag, normalize_name (Prod.fst p) "-" = Prod.fst p
        ∧ ∀ d ∈ (Prod.snd p).dependencies, normalize_name d.name "-" = d.name := by
  intro sources
  induction sources with
  | nil =>
    intro acc dag h hacc
    injection h with h
    subst h
    exact hacc
  | cons s rest ih =>
    intro acc dag h hacc
    cases hnode : node_from_file_iter s with
    | error e =>
      simp only [buildDag, hnode] at h
      cases h
    | ok kv =>
      rcases kv with ⟨k, v⟩
      simp only [buildDag, hnode] at h
      apply ih _ _ h
      intro p hp
      unfold dagInsert at hp
      rcases List.mem_append.mp hp with hp1 | hp2
      · exact hacc p (List.mem_filter.mp hp1).1
      · rcases List.mem_singleton.mp hp2 with rfl
        exact node_from_file_iter_normalized s k v hnode

/-- Claim C10: every dependency graph produced by a successful assembly is
fully normalized — each map key and each dependency name stored in any
node's dependency set is a fixed point of name normalization, so lookups
during root finding and rendering compare normalized forms only. -/
theorem claim_C10_dag_fully_normalized :
    ∀ (sources : List (List String)) (dag : DependencyDag),
      get_dep_dag_from_env sources = Except.ok dag →
      ∀ p ∈ dag, normalize_name (Prod.fst p) "-" = Prod.fst p
        ∧ ∀ d ∈ (Prod.snd p).dependencies, normalize_name d.name "-" = d.name := by
  intro sources dag h
  exact buildDag_normalized sources [] dag h (by intro p hp; cases hp)

theorem claim_C10_witness :
    normalize_name "sample-package" "-" = "sample-package"
    ∧ normalize_name "pyarrow" "-" = "pyarrow" := by
  have h := claim_C10_dag_fully_normalized [c1_lines]
    [("sample-package", ⟨"0.0.1", [⟨"pyarrow", ">=10.0.1"⟩]⟩)] rfl
  have hp := h ("sample-package", ⟨"0.0.1", [⟨"pyarrow", ">=10.0.1"⟩]⟩)
    (List.mem_singleton.mpr rfl)
  exact ⟨hp.1, hp.2 ⟨"pyarrow", ">=10.0.1"⟩ (List.mem_singleton.mpr rfl)⟩

theorem claim_C6_witness : "a" ∈ top_level_distributions ab_dag :=
  (claim_C6_roots_are_unreferenced_keys.1 ab_dag "a").mpr
    ⟨⟨⟨"1.0", [⟨"b", ">=1.0"⟩]⟩, by decide⟩, by decide⟩
